import Mathlib

/-! # Osiris `InputUtil.cpp`: the key table and `KeyBind`

A shallow embedding of `Osiris/InputUtil.cpp`: the static table `keyMap`, the two
`KeyBind` constructors, `toString`, the state queries `isPressed` / `isDown` and the
interactive capture `setToPressedKey`, followed by theorems about them.

Conventions of the embedding:

* a C string / `std::string_view` is the list of its bytes (`CStr`), compared the way
  `std::char_traits<char>` does, byte by byte as unsigned values;
* a `KeyCode` is an integer; `static_cast<std::size_t>` is reduction modulo `2 ^ 64`;
* the host input system (Dear ImGui) is a record of the answers it gives during one frame.
-/

namespace Osiris

/-! ## Strings -/

/-- The bytes of a C string (without the terminating NUL). -/
abbrev CStr := List Nat

/-- The bytes of an ASCII string literal of the source. -/
def lit (s : String) : CStr := s.toList.map Char.toNat

/-- Three-way comparison `std::string_view::compare`: the common prefix is compared
byte by byte, and when it is equal the shorter string comes first. The result is
negative, zero or positive. -/
def svCompare : CStr → CStr → Int
  | [], [] => 0
  | [], _ :: _ => -1
  | _ :: _, [] => 1
  | a :: as, b :: bs => if a < b then -1 else if b < a then 1 else svCompare as bs

/-- The `operator<` of `std::string_view`. -/
def svLt (a b : CStr) : Bool := decide (svCompare a b < 0)

/-- The `operator==` of `std::string_view`. -/
def svEq (a b : CStr) : Bool := decide (a.length = b.length) && decide (svCompare a b = 0)

/-! ## The key table -/

/-- The two build targets selected by the `WIN32_LINUX` macro. -/
inductive Platform where
  | win32
  | linux
  deriving DecidableEq, Repr

/-- Modelled from the spec: the macro `WIN32_LINUX` of `SDK/Platform.h`, which is not
among the sources; it selects its first argument in the Windows build and its second
argument elsewhere ("the Windows branch of one table row"). -/
def WIN32_LINUX (p : Platform) (win linux : Int) : Int :=
  match p with
  | .win32 => win
  | .linux => linux

/-- A character literal of the source as an `int`. -/
def chr (c : Char) : Int := (c.toNat : Int)

/-- The virtual-key code `VK_INSERT` of `Windows.h`. -/
def VK_INSERT : Int := 0x2D

/-! The scancodes of `SDL_scancode.h` used by the table. -/

def SDL_SCANCODE_A : Int := 4
def SDL_SCANCODE_B : Int := 5
def SDL_SCANCODE_C : Int := 6
def SDL_SCANCODE_D : Int := 7
def SDL_SCANCODE_E : Int := 8
def SDL_SCANCODE_F : Int := 9
def SDL_SCANCODE_G : Int := 10
def SDL_SCANCODE_H : Int := 11
def SDL_SCANCODE_I : Int := 12
def SDL_SCANCODE_J : Int := 13
def SDL_SCANCODE_K : Int := 14
def SDL_SCANCODE_L : Int := 15
def SDL_SCANCODE_M : Int := 16
def SDL_SCANCODE_N : Int := 17
def SDL_SCANCODE_O : Int := 18
def SDL_SCANCODE_P : Int := 19
def SDL_SCANCODE_Q : Int := 20
def SDL_SCANCODE_R : Int := 21
def SDL_SCANCODE_S : Int := 22
def SDL_SCANCODE_T : Int := 23
def SDL_SCANCODE_U : Int := 24
def SDL_SCANCODE_V : Int := 25
def SDL_SCANCODE_W : Int := 26
def SDL_SCANCODE_X : Int := 27
def SDL_SCANCODE_Y : Int := 28
def SDL_SCANCODE_Z : Int := 29
def SDL_SCANCODE_1 : Int := 30
def SDL_SCANCODE_2 : Int := 31
def SDL_SCANCODE_3 : Int := 32
def SDL_SCANCODE_4 : Int := 33
def SDL_SCANCODE_5 : Int := 34
def SDL_SCANCODE_6 : Int := 35
def SDL_SCANCODE_7 : Int := 36
def SDL_SCANCODE_8 : Int := 37
def SDL_SCANCODE_9 : Int := 38
def SDL_SCANCODE_0 : Int := 39
def SDL_SCANCODE_INSERT : Int := 73

/-- The `struct Key`: a name and a code. -/
structure Key where
  name : CStr
  code : Int
  deriving DecidableEq, Repr

/-- The table `keyMap`, row for row, for the build target `p`. -/
def keyMap (p : Platform) : List Key :=
  [ ⟨lit "0", WIN32_LINUX p (chr '0') SDL_SCANCODE_0⟩,
    ⟨lit "1", WIN32_LINUX p (chr '1') SDL_SCANCODE_1⟩,
    ⟨lit "2", WIN32_LINUX p (chr '2') SDL_SCANCODE_2⟩,
    ⟨lit "3", WIN32_LINUX p (chr '3') SDL_SCANCODE_3⟩,
    ⟨lit "4", WIN32_LINUX p (chr '4') SDL_SCANCODE_4⟩,
    ⟨lit "5", WIN32_LINUX p (chr '5') SDL_SCANCODE_5⟩,
    ⟨lit "6", WIN32_LINUX p (chr '6') SDL_SCANCODE_6⟩,
    ⟨lit "7", WIN32_LINUX p (chr '7') SDL_SCANCODE_7⟩,
    ⟨lit "8", WIN32_LINUX p (chr '8') SDL_SCANCODE_8⟩,
    ⟨lit "9", WIN32_LINUX p (chr '9') SDL_SCANCODE_9⟩,
    ⟨lit "A", WIN32_LINUX p (chr 'A') SDL_SCANCODE_A⟩,
    ⟨lit "B", WIN32_LINUX p (chr 'B') SDL_SCANCODE_B⟩,
    ⟨lit "C", WIN32_LINUX p (chr 'C') SDL_SCANCODE_C⟩,
    ⟨lit "D", WIN32_LINUX p (chr 'D') SDL_SCANCODE_D⟩,
    ⟨lit "E", WIN32_LINUX p (chr 'E') SDL_SCANCODE_E⟩,
    ⟨lit "F", WIN32_LINUX p (chr 'F') SDL_SCANCODE_F⟩,
    ⟨lit "G", WIN32_LINUX p (chr 'G') SDL_SCANCODE_G⟩,
    ⟨lit "H", WIN32_LINUX p (chr 'H') SDL_SCANCODE_H⟩,
    ⟨lit "I", WIN32_LINUX p (chr 'I') SDL_SCANCODE_I⟩,
    ⟨lit "INSERT", WIN32_LINUX p VK_INSERT SDL_SCANCODE_INSERT⟩,
    ⟨lit "J", WIN32_LINUX p (chr 'J') SDL_SCANCODE_J⟩,
    ⟨lit "K", WIN32_LINUX p (chr 'K') SDL_SCANCODE_K⟩,
    ⟨lit "L", WIN32_LINUX p (chr 'L') SDL_SCANCODE_L⟩,
    ⟨lit "M", WIN32_LINUX p (chr 'M') SDL_SCANCODE_M⟩,
    ⟨lit "MOUSE1", 0⟩,
    ⟨lit "MOUSE2", 1⟩,
    ⟨lit "MOUSE3", 2⟩,
    ⟨lit "MOUSE4", 3⟩,
    ⟨lit "MOUSE5", 4⟩,
    ⟨lit "MOUSEWHEEL_DOWN", 0⟩,
    ⟨lit "MOUSEWHEEL_UP", 0⟩,
    ⟨lit "N", WIN32_LINUX p (chr 'N') SDL_SCANCODE_N⟩,
    ⟨lit "NONE", 0⟩,
    ⟨lit "O", WIN32_LINUX p (chr 'O') SDL_SCANCODE_O⟩,
    ⟨lit "P", WIN32_LINUX p (chr 'P') SDL_SCANCODE_P⟩,
    ⟨lit "Q", WIN32_LINUX p (chr 'Q') SDL_SCANCODE_Q⟩,
    ⟨lit "R", WIN32_LINUX p (chr 'R') SDL_SCANCODE_R⟩,
    ⟨lit "S", WIN32_LINUX p (chr 'S') SDL_SCANCODE_S⟩,
    ⟨lit "T", WIN32_LINUX p (chr 'T') SDL_SCANCODE_T⟩,
    ⟨lit "U", WIN32_LINUX p (chr 'U') SDL_SCANCODE_U⟩,
    ⟨lit "V", WIN32_LINUX p (chr 'V') SDL_SCANCODE_V⟩,
    ⟨lit "W", WIN32_LINUX p (chr 'W') SDL_SCANCODE_W⟩,
    ⟨lit "X", WIN32_LINUX p (chr 'X') SDL_SCANCODE_X⟩,
    ⟨lit "Y", WIN32_LINUX p (chr 'Y') SDL_SCANCODE_Y⟩,
    ⟨lit "Z", WIN32_LINUX p (chr 'Z') SDL_SCANCODE_X⟩ ]

/-- The entry `keyMap[i]`; every use in the source is guarded so that `i` is in range. -/
def keyAt (p : Platform) (i : Nat) : Key := (keyMap p).getD i ⟨[], 0⟩

/-! ## Key codes

Modelled from the spec: the enumeration `KeyBind::KeyCode` is declared in `InputUtil.h`,
which is not among the sources. The spec (and the comment above `keyMap`) fix its values:
"the entry's position in the table is itself its canonical identifier (its key code enum
value)". The enumerators used by `InputUtil.cpp` are therefore the table positions of the
rows of the same name. -/

/-- Modelled from the spec: the enumerator `KeyCode::MOUSE1` of `InputUtil.h`, the table
position of the row `"MOUSE1"`. -/
def KeyCode.MOUSE1 : Int := 24

/-- Modelled from the spec: the enumerator `KeyCode::MOUSE5` of `InputUtil.h`, the table
position of the row `"MOUSE5"`. -/
def KeyCode.MOUSE5 : Int := 28

/-- Modelled from the spec: the enumerator `KeyCode::MOUSEWHEEL_DOWN` of `InputUtil.h`,
the table position of the row `"MOUSEWHEEL_DOWN"`. -/
def KeyCode.MOUSEWHEEL_DOWN : Int := 29

/-- Modelled from the spec: the enumerator `KeyCode::MOUSEWHEEL_UP` of `InputUtil.h`, the
table position of the row `"MOUSEWHEEL_UP"`. -/
def KeyCode.MOUSEWHEEL_UP : Int := 30

/-- Modelled from the spec: the enumerator `KeyCode::NONE` of `InputUtil.h`, the table
position of the row `"NONE"`. -/
def KeyCode.NONE : Int := 32

/-- The conversion `static_cast<std::size_t>(keyCode)` on a 64-bit target. -/
def sizeCast (keyCode : Int) : Nat := (keyCode % 2 ^ 64).toNat

/-- A value that an integer type of at most 64 bits, signed or unsigned, can hold: the
possible values of a `KeyCode`, whatever its underlying type is. -/
def Representable (i : Int) : Prop := -(2 ^ 63) ≤ i ∧ i < 2 ^ 64

instance (i : Int) : Decidable (Representable i) := by
  unfold Representable; infer_instance

/-- The class `KeyBind`: its only data member is `keyCode`. -/
structure KeyBind where
  keyCode : Int
  deriving DecidableEq, Repr

/-- The constructor `KeyBind::KeyBind(KeyCode keyCode)`. -/
def KeyBind.ofCode (p : Platform) (keyCode : Int) : KeyBind :=
  ⟨if sizeCast keyCode < (keyMap p).length then keyCode else KeyCode.NONE⟩

/-- The loop of `std::lower_bound` over `keyMap` with the comparator
`key.name < keyName`: `first` is the start of the remaining range and `len` its length.
Each round halves the range; `fuel` bounds the number of rounds. -/
def lowerBoundLoop (p : Platform) (keyName : CStr) : Nat → Nat → Nat → Nat
  | 0, first, _ => first
  | fuel + 1, first, len =>
    if len = 0 then first
    else
      let half := len / 2
      let middle := first + half
      if svLt (keyAt p middle).name keyName then
        lowerBoundLoop p keyName fuel (middle + 1) (len - half - 1)
      else
        lowerBoundLoop p keyName fuel first half

/-- The call `std::lower_bound(keyMap.begin(), keyMap.end(), keyName, ...)`, as the
distance of the returned iterator from `keyMap.begin()`. The range length is enough fuel,
since every round makes the range strictly shorter. -/
def lowerBound (p : Platform) (keyName : CStr) : Nat :=
  lowerBoundLoop p keyName (keyMap p).length 0 (keyMap p).length

/-- The constructor `KeyBind::KeyBind(const char* keyName)`. -/
def KeyBind.ofName (p : Platform) (keyName : CStr) : KeyBind :=
  let it := lowerBound p keyName
  if it ≠ (keyMap p).length ∧ svEq (keyAt p it).name keyName = true then
    ⟨(it : Int)⟩
  else
    ⟨KeyCode.NONE⟩

/-- The method `KeyBind::toString`. -/
def KeyBind.toString (p : Platform) (b : KeyBind) : CStr :=
  (keyAt p (sizeCast
    (if sizeCast b.keyCode < (keyMap p).length then b.keyCode else KeyCode.NONE))).name

/-! ## The host input snapshot -/

/-- A value of type `float`: not-a-number, an infinity, or a finite value (a rational;
the two zeros compare equal). -/
inductive ImFloat where
  | nan
  | negInf
  | posInf
  | finite (q : ℚ)
  deriving DecidableEq

/-- The comparison `a < b` of two `float`s; it is false when either side is NaN. -/
def ImFloat.lt : ImFloat → ImFloat → Bool
  | .nan, _ => false
  | _, .nan => false
  | .negInf, .negInf => false
  | .negInf, _ => true
  | _, .negInf => false
  | .posInf, _ => false
  | .finite _, .posInf => true
  | .finite a, .finite b => decide (a < b)

/-- The literal `0.0f`. -/
def ImFloat.zero : ImFloat := .finite 0

/-- What Dear ImGui answers during one frame, as far as `InputUtil.cpp` asks:
`MouseWheel` is `ImGui::GetIO().MouseWheel`, `KeyMap_Escape` is
`ImGui::GetIO().KeyMap[ImGuiKey_Escape]`, `KeysDown_size` is
`IM_ARRAYSIZE(ImGui::GetIO().KeysDown)`, and the four functions are the ImGui queries of
the same name. `IsKeyPressed` takes the key and the `repeat` flag; `IsMouseClicked` is
only ever called with its `repeat` argument left at the default. -/
structure Snapshot where
  MouseWheel : ImFloat
  KeyMap_Escape : Int
  KeysDown_size : Nat
  IsMouseClicked : Int → Bool
  IsMouseDown : Int → Bool
  IsKeyPressed : Int → Bool → Bool
  IsKeyDown : Int → Bool

/-- Modelled from the spec: `IM_ARRAYSIZE(ImGui::GetIO().MouseDown)` of `imgui.h`, which
is not among the sources; the mouse buttons are "mouse-button index 0-4". -/
def MouseDown_size : Nat := 5

/-- The default value of the parameter `repeat` in the declaration
`bool IsKeyPressed(int user_key_index, bool repeat = true)` of `imgui.h`. -/
def IsKeyPressed_defaultRepeat : Bool := true

/-! ## State queries -/

/-- The method `KeyBind::isPressed`. -/
def KeyBind.isPressed (p : Platform) (s : Snapshot) (b : KeyBind) : Bool :=
  if b.keyCode = KeyCode.NONE then false
  else if b.keyCode = KeyCode.MOUSEWHEEL_DOWN then s.MouseWheel.lt ImFloat.zero
  else if b.keyCode = KeyCode.MOUSEWHEEL_UP then ImFloat.zero.lt s.MouseWheel
  else if KeyCode.MOUSE1 ≤ b.keyCode ∧ b.keyCode ≤ KeyCode.MOUSE5 then
    s.IsMouseClicked (keyAt p (sizeCast b.keyCode)).code
  else
    decide (sizeCast b.keyCode < (keyMap p).length) &&
      s.IsKeyPressed (keyAt p (sizeCast b.keyCode)).code false

/-- The method `KeyBind::isDown`. -/
def KeyBind.isDown (p : Platform) (s : Snapshot) (b : KeyBind) : Bool :=
  if b.keyCode = KeyCode.NONE then false
  else if b.keyCode = KeyCode.MOUSEWHEEL_DOWN then s.MouseWheel.lt ImFloat.zero
  else if b.keyCode = KeyCode.MOUSEWHEEL_UP then ImFloat.zero.lt s.MouseWheel
  else if KeyCode.MOUSE1 ≤ b.keyCode ∧ b.keyCode ≤ KeyCode.MOUSE5 then
    s.IsMouseDown (keyAt p (sizeCast b.keyCode)).code
  else
    decide (sizeCast b.keyCode < (keyMap p).length) &&
      s.IsKeyDown (keyAt p (sizeCast b.keyCode)).code

/-! ## Interactive capture -/

/-- The first loop of `setToPressedKey`: with `n` buttons left to look at, starting at
button `i`, the first button that `ImGui::IsMouseClicked` reports. -/
def mouseScan (s : Snapshot) : Nat → Nat → Option Nat
  | 0, _ => none
  | n + 1, i => if s.IsMouseClicked (i : Int) then some i else mouseScan s n (i + 1)

/-- The call `std::find_if(keyMap.begin(), keyMap.end(), ...)` with the predicate
`key.code == i`, as the distance of the returned iterator from `keyMap.begin()`
(the table length when no row matches). -/
def findCode (keys : List Key) (i : Int) : Nat :=
  match keys with
  | [] => 0
  | key :: rest => if key.code = i then 0 else findCode rest i + 1

/-- The second loop of `setToPressedKey`: with `n` keyboard codes left to look at,
starting at code `i`, the table position assigned by the first code that
`ImGui::IsKeyPressed` reports and that `std::find_if` finds in the table. -/
def keyScan (p : Platform) (s : Snapshot) : Nat → Nat → Option Nat
  | 0, _ => none
  | n + 1, i =>
    if s.IsKeyPressed (i : Int) IsKeyPressed_defaultRepeat = true ∧
        findCode (keyMap p) (i : Int) ≠ (keyMap p).length then
      some (findCode (keyMap p) (i : Int))
    else
      keyScan p s n (i + 1)

/-- The method `KeyBind::setToPressedKey`, returning the binding after the call. -/
def KeyBind.setToPressedKey (p : Platform) (s : Snapshot) (b : KeyBind) : KeyBind :=
  if s.IsKeyPressed s.KeyMap_Escape IsKeyPressed_defaultRepeat = true then
    ⟨KeyCode.NONE⟩
  else if s.MouseWheel.lt ImFloat.zero = true then
    ⟨KeyCode.MOUSEWHEEL_DOWN⟩
  else if ImFloat.zero.lt s.MouseWheel = true then
    ⟨KeyCode.MOUSEWHEEL_UP⟩
  else
    match mouseScan s MouseDown_size 0 with
    | some i => ⟨KeyCode.MOUSE1 + (i : Int)⟩
    | none =>
      match keyScan p s s.KeysDown_size 0 with
      | some k => ⟨(k : Int)⟩
      | none => b



/-! ## Vocabulary of the statements -/

/-- The names of the rows that are not keyboard keys: the "no binding" row, the two wheel
sentinels and the five mouse buttons. -/
def nonKeyboardNames : List CStr :=
  [lit "NONE", lit "MOUSEWHEEL_DOWN", lit "MOUSEWHEEL_UP",
   lit "MOUSE1", lit "MOUSE2", lit "MOUSE3", lit "MOUSE4", lit "MOUSE5"]

/-- The snapshot in which "mouse button newly clicked" is replaced by "mouse button held"
and "key newly pressed" by "key held"; everything else is kept. -/
def Snapshot.heldForEdge (s : Snapshot) : Snapshot :=
  ⟨s.MouseWheel, s.KeyMap_Escape, s.KeysDown_size, s.IsMouseDown, s.IsMouseDown,
    fun key _ => s.IsKeyDown key, s.IsKeyDown⟩

/-- The test `static_cast<std::size_t>(keyCode) < keyMap.size()` that `toString`,
`isPressed` and `isDown` make before they index the table. -/
def KeyBind.inRange (p : Platform) (b : KeyBind) : Prop :=
  sizeCast b.keyCode < (keyMap p).length

instance (p : Platform) (b : KeyBind) : Decidable (b.inRange p) := by
  unfold KeyBind.inRange; infer_instance

/-- A finite sequence of captures: `setToPressedKey` is called once per frame, on the
snapshots of `frames` in order. -/
def captures (p : Platform) (frames : List Snapshot) (b : KeyBind) : KeyBind :=
  frames.foldl (fun acc s => acc.setToPressedKey p s) b

/-- A frame of the Windows build in which the keys with codes `8` (`VK_BACK`, which has
no row in `keyMap`) and `65` (the row `"A"`) are newly pressed and nothing else happens;
Escape is code `27`. -/
def frameBackspaceAndA : Snapshot :=
  ⟨.finite 0, 27, 512, fun _ => false, fun _ => false,
    fun key _ => decide (key = 8) || decide (key = 65), fun _ => false⟩

/-- A frame in which the only input is the keyboard code `0` newly pressed (on Linux
`SDL_SCANCODE_UNKNOWN`, the scancode of a key that SDL cannot identify); Escape is code
`41` (`SDL_SCANCODE_ESCAPE`). -/
def frameKeyCodeZero : Snapshot :=
  ⟨.finite 0, 41, 512, fun _ => false, fun _ => false,
    fun key _ => decide (key = 0), fun _ => false⟩

/-! ## Auxiliary facts -/

theorem keyMap_length (p : Platform) : (keyMap p).length = 45 := by
  cases p <;> rfl

theorem svCompare_eq_zero_iff (a b : CStr) : svCompare a b = 0 ↔ a = b := by
  induction a generalizing b with
  | nil => cases b <;> simp [svCompare]
  | cons x xs ih =>
    cases b with
    | nil => simp [svCompare]
    | cons y ys =>
      simp only [svCompare]
      split_ifs with h1 h2
      · simp; omega
      · simp; omega
      · have : x = y := by omega
        simp [ih, this]

theorem svEq_iff (a b : CStr) : svEq a b = true ↔ a = b := by
  unfold svEq
  constructor
  · intro h
    simp only [Bool.and_eq_true, decide_eq_true_eq] at h
    exact (svCompare_eq_zero_iff a b).1 h.2
  · rintro rfl
    simp [(svCompare_eq_zero_iff a a).2 rfl]

theorem lowerBoundLoop_le (p : Platform) (keyName : CStr) (fuel first len : Nat) :
    lowerBoundLoop p keyName fuel first len ≤ first + len := by
  induction fuel generalizing first len with
  | zero => simp [lowerBoundLoop]
  | succ n ih =>
    simp only [lowerBoundLoop]
    have h2 : len = 0 ∨ len / 2 < len := by omega
    split_ifs with h0 hlt
    · omega
    · have := ih (first + len / 2 + 1) (len - len / 2 - 1)
      omega
    · have := ih first (len / 2)
      omega

/-- The range length is enough fuel for the binary search: with any two amounts of fuel
that are at least the range length the loop returns the same position, so the loop of
`lowerBound` always ends because its range is empty, never because the fuel is used up. -/
theorem lowerBoundLoop_fuel (p : Platform) (keyName : CStr) (n m first len : Nat)
    (hn : len ≤ n) (hm : len ≤ m) :
    lowerBoundLoop p keyName n first len = lowerBoundLoop p keyName m first len := by
  induction n generalizing m first len with
  | zero =>
    have h0 : len = 0 := by omega
    subst h0
    cases m <;> simp [lowerBoundLoop]
  | succ n ih =>
    cases m with
    | zero =>
      have h0 : len = 0 := by omega
      subst h0
      simp [lowerBoundLoop]
    | succ m =>
      simp only [lowerBoundLoop]
      have h2 : len = 0 ∨ len / 2 < len := by omega
      split_ifs with h0 hlt
      · rfl
      · exact ih m _ _ (by omega) (by omega)
      · exact ih m _ _ (by omega) (by omega)

theorem lowerBound_le (p : Platform) (keyName : CStr) :
    lowerBound p keyName ≤ (keyMap p).length := by
  have := lowerBoundLoop_le p keyName (keyMap p).length 0 (keyMap p).length
  unfold lowerBound
  omega

theorem keyAt_mem (p : Platform) (i : Nat) (h : i < (keyMap p).length) :
    keyAt p i ∈ keyMap p := by
  unfold keyAt
  rw [List.getD_eq_getElem _ _ h]
  exact List.getElem_mem h

theorem sizeCast_of_nonneg (i : Int) (h0 : 0 ≤ i) (h1 : i < 2 ^ 64) :
    sizeCast i = i.toNat := by
  unfold sizeCast
  rw [Int.emod_eq_of_lt h0 h1]

theorem sizeCast_of_neg (i : Int) (h0 : i < 0) (h1 : -(2 ^ 63) ≤ i) :
    2 ^ 63 ≤ sizeCast i := by
  unfold sizeCast
  norm_num at *
  omega

/-! ## The name table and the constructors -/

set_option maxRecDepth 100000 in
/-- C1: name round trip. For every row `i` of `keyMap` (the table has 45 rows) the
binary search for the row's own name lands on `i`, so `KeyBind(name)` holds key code `i`
and its `toString()` returns exactly that name. -/
theorem name_round_trip (p : Platform) (i : Nat) (h : i < (keyMap p).length) :
    (keyMap p).length = 45 ∧
    lowerBound p (keyAt p i).name = i ∧
    (KeyBind.ofName p (keyAt p i).name).keyCode = (i : Int) ∧
    (KeyBind.ofName p (keyAt p i).name).toString p = (keyAt p i).name := by
  have key : ∀ q : Platform, ∀ j : Fin 45,
      lowerBound q (keyAt q j).name = j ∧
      (KeyBind.ofName q (keyAt q j).name).keyCode = ((j : Nat) : Int) ∧
      (KeyBind.ofName q (keyAt q j).name).toString q = (keyAt q j).name := by
    intro q
    cases q <;> decide
  rw [keyMap_length] at h
  exact ⟨keyMap_length p, key p ⟨i, h⟩⟩

/-- Witness of `name_round_trip`: the row `"MOUSE3"` (position 26) of the Windows table. -/
theorem name_round_trip_witness :
    (26 < (keyMap .win32).length) ∧
    (keyAt .win32 26).name = lit "MOUSE3" ∧
    lowerBound .win32 (keyAt .win32 26).name = 26 ∧
    (KeyBind.ofName .win32 (keyAt .win32 26).name).toString .win32 = (keyAt .win32 26).name :=
  ⟨by decide, by decide, (name_round_trip .win32 26 (by decide)).2.1,
    (name_round_trip .win32 26 (by decide)).2.2.2⟩

/-- C2: unknown names degrade to NONE. For every string `s` that is not exactly the name
of a row of `keyMap`, `KeyBind(s)` holds the key code `NONE` and its `toString()` is
`"NONE"`. -/
theorem unknown_name_is_NONE (p : Platform) (s : CStr)
    (h : ∀ e ∈ keyMap p, e.name ≠ s) :
    (KeyBind.ofName p s).keyCode = KeyCode.NONE ∧
    (KeyBind.ofName p s).toString p = lit "NONE" := by
  have hk : KeyBind.ofName p s = ⟨KeyCode.NONE⟩ := by
    unfold KeyBind.ofName
    simp only
    split_ifs with hc
    · exfalso
      have hlt : lowerBound p s < (keyMap p).length :=
        lt_of_le_of_ne (lowerBound_le p s) hc.1
      exact h _ (keyAt_mem p _ hlt) ((svEq_iff _ _).1 hc.2)
    · rfl
  rw [hk]
  refine ⟨rfl, ?_⟩
  cases p <;> decide

/-- Witness of `unknown_name_is_NONE`: the strings `"MOUSE"` (a proper prefix of table
names) and `"none"` (a table name in the wrong case) are not in the table. -/
theorem unknown_name_is_NONE_witness :
    (∀ e ∈ keyMap .linux, e.name ≠ lit "MOUSE") ∧
    (KeyBind.ofName .linux (lit "MOUSE")).toString .linux = lit "NONE" ∧
    (KeyBind.ofName .win32 (lit "none")).keyCode = KeyCode.NONE :=
  ⟨by decide, (unknown_name_is_NONE .linux (lit "MOUSE") (by decide)).2,
    (unknown_name_is_NONE .win32 (lit "none") (by decide)).1⟩

/-- C3: index construction is clamped. For every integer `i` that a key code can hold,
`KeyBind(KeyCode(i)).toString()` is the name of row `i` when `0 ≤ i < keyMap.size()`, and
is the name of row `NONE`, which is `"NONE"`, for every other `i` (negative values and
`i = keyMap.size()` included). -/
theorem index_construction_clamped (p : Platform) (i : Int) (hi : Representable i) :
    (0 ≤ i ∧ i < ((keyMap p).length : Int) →
      (KeyBind.ofCode p i).toString p = (keyAt p i.toNat).name) ∧
    (¬ (0 ≤ i ∧ i < ((keyMap p).length : Int)) →
      (KeyBind.ofCode p i).toString p = (keyAt p KeyCode.NONE.toNat).name ∧
      (KeyBind.ofCode p i).toString p = lit "NONE") := by
  obtain ⟨hlo, hhi⟩ := hi
  have hNone : sizeCast KeyCode.NONE = 32 := by decide
  have hlen := keyMap_length p
  constructor
  · rintro ⟨h0, h1⟩
    have hc : sizeCast i = i.toNat := sizeCast_of_nonneg i h0 hhi
    have hlt : sizeCast i < (keyMap p).length := by rw [hc]; omega
    unfold KeyBind.toString KeyBind.ofCode
    simp only [if_pos hlt]
    rw [hc]
  · intro hn
    have hge : ¬ sizeCast i < (keyMap p).length := by
      by_cases h0 : 0 ≤ i
      · rw [sizeCast_of_nonneg i h0 hhi]; omega
      · have := sizeCast_of_neg i (by omega) hlo
        rw [hlen]
        omega
    have hN : sizeCast KeyCode.NONE < (keyMap p).length := by rw [hNone, hlen]; decide
    have e1 : (KeyBind.ofCode p i).toString p = (keyAt p (sizeCast KeyCode.NONE)).name := by
      unfold KeyBind.toString KeyBind.ofCode
      simp only [if_neg hge, if_pos hN]
    refine ⟨by rw [e1, hNone]; rfl, ?_⟩
    rw [e1, hNone]
    cases p <;> decide

/-- Witness of `index_construction_clamped`: `i = 45 = keyMap.size()` is clamped and
`i = 44` is not. -/
theorem index_construction_clamped_witness :
    Representable 45 ∧ Representable (-1) ∧ Representable 44 ∧
    (KeyBind.ofCode .win32 45).toString .win32 = lit "NONE" ∧
    (KeyBind.ofCode .win32 (-1)).toString .win32 = lit "NONE" ∧
    (KeyBind.ofCode .win32 44).toString .win32 = lit "Z" :=
  ⟨by decide, by decide, by decide,
    ((index_construction_clamped .win32 45 (by decide)).2 (by decide)).2,
    ((index_construction_clamped .win32 (-1) (by decide)).2 (by decide)).2,
    ((index_construction_clamped .win32 44 (by decide)).1 (by decide)).trans (by decide)⟩

/-- C4: the key table is strictly sorted by name under byte-wise comparison. For every
`i` with `i + 1 < keyMap.size()` the name of row `i` is less than the name of row
`i + 1`, and the names of the table are pairwise distinct. -/
theorem keyMap_strictly_sorted (p : Platform) (i : Nat) (h : i + 1 < (keyMap p).length) :
    svLt (keyAt p i).name (keyAt p (i + 1)).name = true ∧
    ((keyMap p).map Key.name).Nodup := by
  have key : ∀ q : Platform, ∀ j : Fin 44,
      svLt (keyAt q j).name (keyAt q (j + 1)).name = true := by
    intro q
    cases q <;> decide
  have nd : ∀ q : Platform, ((keyMap q).map Key.name).Nodup := by
    intro q
    cases q <;> decide
  rw [keyMap_length] at h
  exact ⟨key p ⟨i, by omega⟩, nd p⟩

/-- Witness of `keyMap_strictly_sorted`: rows 28 and 29, `"MOUSE5" < "MOUSEWHEEL_DOWN"`. -/
theorem keyMap_strictly_sorted_witness :
    28 + 1 < (keyMap .linux).length ∧
    svLt (lit "MOUSE5") (lit "MOUSEWHEEL_DOWN") = true :=
  ⟨by decide, (keyMap_strictly_sorted .linux 28 (by decide)).1⟩

/-! ## State queries -/

/-- C5: a NONE binding is never active. For every host input snapshot, whatever its
scroll delta, mouse buttons and keys are, `KeyBind(NONE).isPressed()` and
`KeyBind(NONE).isDown()` are both false (and `KeyBind(NONE)` is the row named `"NONE"`). -/
theorem NONE_never_active (p : Platform) (s : Snapshot) :
    (KeyBind.ofCode p KeyCode.NONE).isPressed p s = false ∧
    (KeyBind.ofCode p KeyCode.NONE).isDown p s = false ∧
    (KeyBind.ofCode p KeyCode.NONE).toString p = lit "NONE" := by
  have hb : KeyBind.ofCode p KeyCode.NONE = ⟨KeyCode.NONE⟩ := by
    cases p <;> decide
  rw [hb]
  refine ⟨?_, ?_, ?_⟩
  · simp [KeyBind.isPressed]
  · simp [KeyBind.isDown]
  · cases p <;> decide

/-- C6: the wheel sentinels read only the sign of the scroll delta. For every snapshot,
`KeyBind(MOUSEWHEEL_DOWN).isPressed()` is true iff the scroll delta is `< 0` and
`KeyBind(MOUSEWHEEL_UP).isPressed()` is true iff it is `> 0`; two snapshots with the same
scroll delta give the same answers; the two are never pressed in the same frame; and
with scroll delta `-1` DOWN is pressed and UP is not. -/
theorem wheel_sentinels_read_scroll_sign (p : Platform) (s : Snapshot) :
    ((KeyBind.ofCode p KeyCode.MOUSEWHEEL_DOWN).isPressed p s = true ↔
      s.MouseWheel.lt ImFloat.zero = true) ∧
    ((KeyBind.ofCode p KeyCode.MOUSEWHEEL_UP).isPressed p s = true ↔
      ImFloat.zero.lt s.MouseWheel = true) ∧
    (∀ q : ℚ, s.MouseWheel = .finite q →
      ((KeyBind.ofCode p KeyCode.MOUSEWHEEL_DOWN).isPressed p s = true ↔ q < 0) ∧
      ((KeyBind.ofCode p KeyCode.MOUSEWHEEL_UP).isPressed p s = true ↔ 0 < q)) ∧
    (∀ t : Snapshot, t.MouseWheel = s.MouseWheel →
      (KeyBind.ofCode p KeyCode.MOUSEWHEEL_DOWN).isPressed p t =
        (KeyBind.ofCode p KeyCode.MOUSEWHEEL_DOWN).isPressed p s ∧
      (KeyBind.ofCode p KeyCode.MOUSEWHEEL_UP).isPressed p t =
        (KeyBind.ofCode p KeyCode.MOUSEWHEEL_UP).isPressed p s) ∧
    ¬ ((KeyBind.ofCode p KeyCode.MOUSEWHEEL_DOWN).isPressed p s = true ∧
       (KeyBind.ofCode p KeyCode.MOUSEWHEEL_UP).isPressed p s = true) ∧
    (s.MouseWheel = .finite (-1) →
      (KeyBind.ofCode p KeyCode.MOUSEWHEEL_DOWN).isPressed p s = true ∧
      (KeyBind.ofCode p KeyCode.MOUSEWHEEL_UP).isPressed p s = false) ∧
    (KeyBind.ofCode p KeyCode.MOUSEWHEEL_DOWN).toString p = lit "MOUSEWHEEL_DOWN" ∧
    (KeyBind.ofCode p KeyCode.MOUSEWHEEL_UP).toString p = lit "MOUSEWHEEL_UP" := by
  have hd : KeyBind.ofCode p KeyCode.MOUSEWHEEL_DOWN = ⟨KeyCode.MOUSEWHEEL_DOWN⟩ := by
    cases p <;> decide
  have hu : KeyBind.ofCode p KeyCode.MOUSEWHEEL_UP = ⟨KeyCode.MOUSEWHEEL_UP⟩ := by
    cases p <;> decide
  have pd : ∀ t : Snapshot, (⟨KeyCode.MOUSEWHEEL_DOWN⟩ : KeyBind).isPressed p t =
      t.MouseWheel.lt ImFloat.zero := by
    intro t
    simp [KeyBind.isPressed, KeyCode.MOUSEWHEEL_DOWN, KeyCode.NONE]
  have pu : ∀ t : Snapshot, (⟨KeyCode.MOUSEWHEEL_UP⟩ : KeyBind).isPressed p t =
      ImFloat.zero.lt t.MouseWheel := by
    intro t
    simp [KeyBind.isPressed, KeyCode.MOUSEWHEEL_UP, KeyCode.MOUSEWHEEL_DOWN, KeyCode.NONE]
  rw [hd, hu]
  simp only [pd, pu]
  refine ⟨trivial, trivial, ?_, ?_, ?_, ?_, ?_, ?_⟩
  · intro q hq
    simp [hq, ImFloat.lt, ImFloat.zero]
  · intro t ht
    simp [ht]
  · cases hw : s.MouseWheel <;> simp [ImFloat.lt, ImFloat.zero]
    intro h
    exact le_of_lt h
  · intro hq
    rw [hq]
    exact ⟨by decide, by decide⟩
  · cases p <;> decide
  · cases p <;> decide

/-- Witness of `wheel_sentinels_read_scroll_sign`: a frame with scroll delta `-1`, mouse
button 0 clicked and every key pressed. -/
theorem wheel_sentinels_read_scroll_sign_witness :
    (KeyBind.ofCode .win32 KeyCode.MOUSEWHEEL_DOWN).isPressed .win32
      ⟨.finite (-1), 27, 512, fun b => decide (b = 0), fun _ => false,
        fun _ _ => true, fun _ => true⟩ = true ∧
    (KeyBind.ofCode .win32 KeyCode.MOUSEWHEEL_UP).isPressed .win32
      ⟨.finite (-1), 27, 512, fun b => decide (b = 0), fun _ => false,
        fun _ _ => true, fun _ => true⟩ = false :=
  (wheel_sentinels_read_scroll_sign .win32
    ⟨.finite (-1), 27, 512, fun b => decide (b = 0), fun _ => false,
      fun _ _ => true, fun _ => true⟩).2.2.2.2.2.1 rfl

/-- C7: mouse-button bindings use the 0-based button index. For every `k` in `1..5` and
every snapshot, `KeyBind(MOUSEk).isPressed()` is exactly what the host reports for
"mouse button `k - 1` newly clicked"; it is the same on every snapshot with the same
click state; and `MOUSEk` is the row named `"MOUSE"` followed by the digit `k`. -/
theorem mouse_binding_zero_based (p : Platform) (s : Snapshot) (k : Nat)
    (h1 : 1 ≤ k) (h5 : k ≤ 5) :
    (KeyBind.ofCode p (KeyCode.MOUSE1 + ((k : Int) - 1))).isPressed p s =
      s.IsMouseClicked ((k : Int) - 1) ∧
    (∀ t : Snapshot, t.IsMouseClicked = s.IsMouseClicked →
      (KeyBind.ofCode p (KeyCode.MOUSE1 + ((k : Int) - 1))).isPressed p t =
        (KeyBind.ofCode p (KeyCode.MOUSE1 + ((k : Int) - 1))).isPressed p s) ∧
    (KeyBind.ofCode p (KeyCode.MOUSE1 + ((k : Int) - 1))).toString p =
      lit "MOUSE" ++ [48 + k] := by
  have key : ∀ t : Snapshot,
      (KeyBind.ofCode p (KeyCode.MOUSE1 + ((k : Int) - 1))).isPressed p t =
        t.IsMouseClicked ((k : Int) - 1) := by
    intro t
    have hk : k = 1 ∨ k = 2 ∨ k = 3 ∨ k = 4 ∨ k = 5 := by omega
    rcases hk with rfl | rfl | rfl | rfl | rfl <;> cases p <;> rfl
  refine ⟨key s, ?_, ?_⟩
  · intro t ht
    rw [key t, key s, ht]
  · have hk : k = 1 ∨ k = 2 ∨ k = 3 ∨ k = 4 ∨ k = 5 := by omega
    rcases hk with rfl | rfl | rfl | rfl | rfl <;> cases p <;> decide

/-- Witness of `mouse_binding_zero_based`: mouse button 2 is the only one clicked, so
`MOUSE3` is pressed. -/
theorem mouse_binding_zero_based_witness :
    (KeyBind.ofCode .linux (KeyCode.MOUSE1 + (((3 : Nat) : Int) - 1))).isPressed .linux
      ⟨.finite 0, 41, 512, fun b => decide (b = 2), fun _ => false,
        fun _ _ => false, fun _ => false⟩ = true ∧
    (KeyBind.ofCode .linux (KeyCode.MOUSE1 + (((3 : Nat) : Int) - 1))).toString .linux =
      lit "MOUSE3" :=
  ⟨(mouse_binding_zero_based .linux
      ⟨.finite 0, 41, 512, fun b => decide (b = 2), fun _ => false,
        fun _ _ => false, fun _ => false⟩ 3 (by decide) (by decide)).1.trans (by decide),
   (mouse_binding_zero_based .linux
      ⟨.finite 0, 41, 512, fun b => decide (b = 2), fun _ => false,
        fun _ _ => false, fun _ => false⟩ 3 (by decide) (by decide)).2.2.trans (by decide)⟩

/-- Shared case analysis: a binding whose index is in range and whose row is a keyboard
row takes the last branch of `isPressed` and of `isDown`. -/
theorem keyboard_row_cases (p : Platform) (b : KeyBind)
    (hr : sizeCast b.keyCode < (keyMap p).length)
    (hn : b.toString p ∉ nonKeyboardNames) :
    b.keyCode ≠ KeyCode.NONE ∧ b.keyCode ≠ KeyCode.MOUSEWHEEL_DOWN ∧
    b.keyCode ≠ KeyCode.MOUSEWHEEL_UP ∧
    ¬ (KeyCode.MOUSE1 ≤ b.keyCode ∧ b.keyCode ≤ KeyCode.MOUSE5) := by
  obtain ⟨kc⟩ := b
  have bad : ∀ v : Int, 24 ≤ v → v ≤ 32 → v ≠ 31 → kc ≠ v := by
    intro v h1 h2 h3 hv
    subst hv
    apply hn
    have hv : kc = 24 ∨ kc = 25 ∨ kc = 26 ∨ kc = 27 ∨ kc = 28 ∨ kc = 29 ∨ kc = 30 ∨
        kc = 32 := by omega
    rcases hv with rfl | rfl | rfl | rfl | rfl | rfl | rfl | rfl <;> cases p <;> decide
  simp only [KeyCode.NONE, KeyCode.MOUSEWHEEL_DOWN, KeyCode.MOUSEWHEEL_UP, KeyCode.MOUSE1,
    KeyCode.MOUSE5]
  refine ⟨bad 32 (by decide) (by decide) (by decide),
    bad 29 (by decide) (by decide) (by decide),
    bad 30 (by decide) (by decide) (by decide), ?_⟩
  rintro ⟨h1, h2⟩
  exact bad kc (by omega) (by omega) (by omega) rfl

/-- C8: keyboard bindings delegate to the host's edge detection. For every binding whose
index is in range and whose row is none of NONE, MOUSEWHEEL_DOWN, MOUSEWHEEL_UP,
MOUSE1..MOUSE5, and for every snapshot, `isPressed()` is exactly what the host reports
for "key `keyMap[keyCode].code` newly pressed, repeat disabled"; hence it is the same on
every snapshot with the same key-press answers, whatever the mouse buttons and the
scroll delta are. -/
theorem keyboard_binding_delegates (p : Platform) (s : Snapshot) (b : KeyBind)
    (hr : sizeCast b.keyCode < (keyMap p).length)
    (hn : b.toString p ∉ nonKeyboardNames) :
    b.isPressed p s = s.IsKeyPressed (keyAt p (sizeCast b.keyCode)).code false ∧
    (∀ t : Snapshot, t.IsKeyPressed = s.IsKeyPressed → b.isPressed p t = b.isPressed p s) := by
  obtain ⟨h1, h2, h3, h4⟩ := keyboard_row_cases p b hr hn
  have key : ∀ t : Snapshot,
      b.isPressed p t = t.IsKeyPressed (keyAt p (sizeCast b.keyCode)).code false := by
    intro t
    unfold KeyBind.isPressed
    rw [if_neg h1, if_neg h2, if_neg h3, if_neg h4]
    simp [hr]
  refine ⟨key s, ?_⟩
  intro t ht
  rw [key t, key s, ht]

/-- Witness of `keyboard_binding_delegates`: the binding of row 10 (`"A"`, Windows code
`65`) on a frame where key 65 is newly pressed, a mouse button is clicked and the wheel
moves. -/
theorem keyboard_binding_delegates_witness :
    sizeCast (⟨10⟩ : KeyBind).keyCode < (keyMap .win32).length ∧
    (⟨10⟩ : KeyBind).toString .win32 ∉ nonKeyboardNames ∧
    (⟨10⟩ : KeyBind).isPressed .win32
      ⟨.finite 1, 27, 512, fun _ => true, fun _ => true,
        fun key rep => decide (key = 65) && !rep, fun _ => false⟩ = true :=
  ⟨by decide, by decide,
    (keyboard_binding_delegates .win32
      ⟨.finite 1, 27, 512, fun _ => true, fun _ => true,
        fun key rep => decide (key = 65) && !rep, fun _ => false⟩ ⟨10⟩
      (by decide) (by decide)).1.trans (by decide)⟩

/-- C9: `isDown` has the dispatch of `isPressed` with held state in place of edge state.
For every binding and snapshot, `isDown()` equals `isPressed()` evaluated on the
snapshot where "clicked" is replaced by "held" for mouse buttons and "pressed" by "held"
for keys. In particular, for the two wheel sentinels `isDown()` equals `isPressed()` on
the same snapshot, for `MOUSEk` it is "button `k - 1` held", and for a keyboard row it is
"key `keyMap[keyCode].code` held". -/
theorem isDown_is_isPressed_on_held_state (p : Platform) (s : Snapshot) (b : KeyBind) :
    b.isDown p s = b.isPressed p s.heldForEdge ∧
    (KeyBind.ofCode p KeyCode.MOUSEWHEEL_DOWN).isDown p s =
      (KeyBind.ofCode p KeyCode.MOUSEWHEEL_DOWN).isPressed p s ∧
    (KeyBind.ofCode p KeyCode.MOUSEWHEEL_UP).isDown p s =
      (KeyBind.ofCode p KeyCode.MOUSEWHEEL_UP).isPressed p s ∧
    (∀ k : Nat, 1 ≤ k → k ≤ 5 →
      (KeyBind.ofCode p (KeyCode.MOUSE1 + ((k : Int) - 1))).isDown p s =
        s.IsMouseDown ((k : Int) - 1)) ∧
    (sizeCast b.keyCode < (keyMap p).length → b.toString p ∉ nonKeyboardNames →
      b.isDown p s = s.IsKeyDown (keyAt p (sizeCast b.keyCode)).code) := by
  refine ⟨rfl, ?_, ?_, ?_, ?_⟩
  · cases p <;> rfl
  · cases p <;> rfl
  · intro k h1 h5
    have hk : k = 1 ∨ k = 2 ∨ k = 3 ∨ k = 4 ∨ k = 5 := by omega
    rcases hk with rfl | rfl | rfl | rfl | rfl <;> cases p <;> rfl
  · intro hr hn
    obtain ⟨h1, h2, h3, h4⟩ := keyboard_row_cases p b hr hn
    unfold KeyBind.isDown
    rw [if_neg h1, if_neg h2, if_neg h3, if_neg h4]
    simp [hr]

/-- Witness of `isDown_is_isPressed_on_held_state`: on a frame where mouse button 1 and
key 27 (Linux `"X"`) are held but nothing is newly clicked or pressed, `MOUSE2` and `"X"`
are down and not pressed. -/
theorem isDown_is_isPressed_on_held_state_witness :
    (KeyBind.ofCode .linux (KeyCode.MOUSE1 + (((2 : Nat) : Int) - 1))).isDown .linux
      ⟨.finite 0, 41, 512, fun _ => false, fun b => decide (b = 1),
        fun _ _ => false, fun key => decide (key = 27)⟩ = true ∧
    (KeyBind.ofCode .linux (KeyCode.MOUSE1 + (((2 : Nat) : Int) - 1))).isPressed .linux
      ⟨.finite 0, 41, 512, fun _ => false, fun b => decide (b = 1),
        fun _ _ => false, fun key => decide (key = 27)⟩ = false ∧
    (⟨42⟩ : KeyBind).isDown .linux
      ⟨.finite 0, 41, 512, fun _ => false, fun b => decide (b = 1),
        fun _ _ => false, fun key => decide (key = 27)⟩ = true :=
  ⟨((isDown_is_isPressed_on_held_state .linux
      ⟨.finite 0, 41, 512, fun _ => false, fun b => decide (b = 1),
        fun _ _ => false, fun key => decide (key = 27)⟩ ⟨42⟩).2.2.2.1
      2 (by decide) (by decide)).trans (by decide),
   by decide,
   ((isDown_is_isPressed_on_held_state .linux
      ⟨.finite 0, 41, 512, fun _ => false, fun b => decide (b = 1),
        fun _ _ => false, fun key => decide (key = 27)⟩ ⟨42⟩).2.2.2.2
      (by decide) (by decide)).trans (by decide)⟩

/-! ## Interactive capture -/

/-- C10: Escape has top priority in capture. For every prior binding and every snapshot
in which the host reports the Escape key pressed, `setToPressedKey()` leaves
`keyCode == NONE`, whatever the scroll delta, the mouse clicks and the other pressed keys
of the frame are. -/
theorem escape_wins_capture (p : Platform) (s : Snapshot) (b : KeyBind)
    (hesc : s.IsKeyPressed s.KeyMap_Escape IsKeyPressed_defaultRepeat = true) :
    (b.setToPressedKey p s).keyCode = KeyCode.NONE ∧
    (b.setToPressedKey p s).toString p = lit "NONE" := by
  have hk : b.setToPressedKey p s = ⟨KeyCode.NONE⟩ := by
    unfold KeyBind.setToPressedKey
    rw [if_pos hesc]
  rw [hk]
  refine ⟨rfl, ?_⟩
  cases p <;> decide

/-- Witness of `escape_wins_capture`: Escape (code 27) together with a click of mouse
button 0, a wheel movement and another pressed key; the prior binding `"A"` becomes
NONE. -/
theorem escape_wins_capture_witness :
    ((⟨10⟩ : KeyBind).setToPressedKey .win32
      ⟨.finite (-1), 27, 512, fun b => decide (b = 0), fun _ => false,
        fun key _ => decide (key = 27) || decide (key = 66), fun _ => false⟩).keyCode =
      KeyCode.NONE :=
  (escape_wins_capture .win32
    ⟨.finite (-1), 27, 512, fun b => decide (b = 0), fun _ => false,
      fun key _ => decide (key = 27) || decide (key = 66), fun _ => false⟩ ⟨10⟩
    (by decide)).1

/-! ### Facts about the two loops of the capture -/

theorem ImFloat.not_lt_zero_of_zero_lt (w : ImFloat) (h : ImFloat.zero.lt w = true) :
    w.lt ImFloat.zero = false := by
  cases w <;> simp_all [ImFloat.lt, ImFloat.zero]
  exact le_of_lt h

theorem mouseScan_eq_some (s : Snapshot) (n i m : Nat) (h1 : i ≤ m) (h2 : m < i + n)
    (hm : s.IsMouseClicked (m : Int) = true)
    (hlow : ∀ j : Nat, i ≤ j → j < m → s.IsMouseClicked (j : Int) = false) :
    mouseScan s n i = some m := by
  induction n generalizing i with
  | zero => omega
  | succ n ih =>
    unfold mouseScan
    by_cases him : i = m
    · subst him
      rw [if_pos hm]
    · have hi : s.IsMouseClicked (i : Int) = false := hlow i (le_refl i) (by omega)
      rw [hi]
      simp only [Bool.false_eq_true, if_false]
      exact ih (i + 1) (by omega) (by omega) (fun j hj1 hj2 => hlow j (by omega) hj2)

theorem mouseScan_eq_none (s : Snapshot) (n i : Nat)
    (h : ∀ j : Nat, i ≤ j → j < i + n → s.IsMouseClicked (j : Int) = false) :
    mouseScan s n i = none := by
  induction n generalizing i with
  | zero => rfl
  | succ n ih =>
    unfold mouseScan
    rw [h i (le_refl i) (by omega)]
    simp only [Bool.false_eq_true, if_false]
    exact ih (i + 1) (fun j hj1 hj2 => h j (by omega) (by omega))

theorem mouseScan_some_bound (s : Snapshot) (n i m : Nat) (h : mouseScan s n i = some m) :
    i ≤ m ∧ m < i + n := by
  induction n generalizing i with
  | zero => simp [mouseScan] at h
  | succ n ih =>
    unfold mouseScan at h
    split_ifs at h with hc
    · have : i = m := by simpa using h
      omega
    · have := ih (i + 1) h
      omega

theorem findCode_le (keys : List Key) (c : Int) : findCode keys c ≤ keys.length := by
  induction keys with
  | nil => simp [findCode]
  | cons k rest ih =>
    unfold findCode
    split_ifs
    · simp
    · simp only [List.length_cons]
      omega

theorem findCode_spec (keys : List Key) (c : Int) (d : Key)
    (h : findCode keys c ≠ keys.length) :
    (keys.getD (findCode keys c) d).code = c ∧
    ∀ k : Nat, k < findCode keys c → (keys.getD k d).code ≠ c := by
  induction keys with
  | nil => simp [findCode] at h
  | cons key rest ih =>
    unfold findCode at h ⊢
    split_ifs at h ⊢ with hc
    · exact ⟨by simpa using hc, fun k hk => absurd hk (Nat.not_lt_zero k)⟩
    · have h2 : findCode rest c ≠ rest.length := by
        intro e
        apply h
        simp [e]
      obtain ⟨a1, a2⟩ := ih h2
      refine ⟨by simpa using a1, ?_⟩
      intro k hk
      cases k with
      | zero => simpa using hc
      | succ k => simpa using a2 k (by omega)

theorem keyScan_eq_some (p : Platform) (s : Snapshot) (n i c : Nat) (h1 : i ≤ c)
    (h2 : c < i + n)
    (hc : s.IsKeyPressed (c : Int) IsKeyPressed_defaultRepeat = true)
    (hrow : findCode (keyMap p) (c : Int) ≠ (keyMap p).length)
    (hlow : ∀ j : Nat, i ≤ j → j < c →
      s.IsKeyPressed (j : Int) IsKeyPressed_defaultRepeat = true →
      findCode (keyMap p) (j : Int) = (keyMap p).length) :
    keyScan p s n i = some (findCode (keyMap p) (c : Int)) := by
  induction n generalizing i with
  | zero => omega
  | succ n ih =>
    unfold keyScan
    by_cases hic : i = c
    · subst hic
      rw [if_pos ⟨hc, hrow⟩]
    · have hno : ¬ (s.IsKeyPressed (i : Int) IsKeyPressed_defaultRepeat = true ∧
          findCode (keyMap p) (i : Int) ≠ (keyMap p).length) := by
        rintro ⟨a, b⟩
        exact b (hlow i (le_refl i) (by omega) a)
      rw [if_neg hno]
      exact ih (i + 1) (by omega) (by omega) (fun j hj1 hj2 => hlow j (by omega) hj2)

theorem keyScan_eq_none (p : Platform) (s : Snapshot) (n i : Nat)
    (h : ∀ j : Nat, i ≤ j → j < i + n →
      s.IsKeyPressed (j : Int) IsKeyPressed_defaultRepeat = true →
      findCode (keyMap p) (j : Int) = (keyMap p).length) :
    keyScan p s n i = none := by
  induction n generalizing i with
  | zero => rfl
  | succ n ih =>
    unfold keyScan
    have hno : ¬ (s.IsKeyPressed (i : Int) IsKeyPressed_defaultRepeat = true ∧
        findCode (keyMap p) (i : Int) ≠ (keyMap p).length) := by
      rintro ⟨a, b⟩
      exact b (h i (le_refl i) (by omega) a)
    rw [if_neg hno]
    exact ih (i + 1) (fun j hj1 hj2 => h j (by omega) (by omega))

theorem keyScan_some (p : Platform) (s : Snapshot) (n i k : Nat)
    (h : keyScan p s n i = some k) :
    ∃ c : Nat, i ≤ c ∧ c < i + n ∧
      s.IsKeyPressed (c : Int) IsKeyPressed_defaultRepeat = true ∧
      findCode (keyMap p) (c : Int) ≠ (keyMap p).length ∧
      k = findCode (keyMap p) (c : Int) := by
  induction n generalizing i with
  | zero => simp [keyScan] at h
  | succ n ih =>
    unfold keyScan at h
    split_ifs at h with hc
    · exact ⟨i, le_refl i, by omega, hc.1, hc.2, by simpa using h.symm⟩
    · obtain ⟨c, a1, a2, a3⟩ := ih (i + 1) h
      exact ⟨c, by omega, by omega, a3⟩

/-- The branch of `setToPressedKey` that is reached when Escape is not pressed and the
scroll delta is neither negative nor positive: the two scanning loops. -/
theorem setToPressedKey_scan (p : Platform) (s : Snapshot) (b : KeyBind)
    (hesc : s.IsKeyPressed s.KeyMap_Escape IsKeyPressed_defaultRepeat = false)
    (hdown : s.MouseWheel.lt ImFloat.zero = false)
    (hup : ImFloat.zero.lt s.MouseWheel = false) :
    b.setToPressedKey p s =
      match mouseScan s MouseDown_size 0 with
      | some i => ⟨KeyCode.MOUSE1 + (i : Int)⟩
      | none =>
        match keyScan p s s.KeysDown_size 0 with
        | some k => ⟨(k : Int)⟩
        | none => b := by
  unfold KeyBind.setToPressedKey
  simp [hesc, hdown, hup]

/-- C11: the wheel beats buttons and keys in capture. For every prior binding and every
snapshot with Escape not pressed, `setToPressedKey()` sets `keyCode` to MOUSEWHEEL_DOWN
when the scroll delta is `< 0` and to MOUSEWHEEL_UP when it is `> 0`, whatever mouse
buttons are clicked and keys are pressed in that frame. -/
theorem wheel_beats_buttons_and_keys (p : Platform) (s : Snapshot) (b : KeyBind)
    (hesc : s.IsKeyPressed s.KeyMap_Escape IsKeyPressed_defaultRepeat = false) :
    (s.MouseWheel.lt ImFloat.zero = true →
      (b.setToPressedKey p s).keyCode = KeyCode.MOUSEWHEEL_DOWN ∧
      (b.setToPressedKey p s).toString p = lit "MOUSEWHEEL_DOWN") ∧
    (ImFloat.zero.lt s.MouseWheel = true →
      (b.setToPressedKey p s).keyCode = KeyCode.MOUSEWHEEL_UP ∧
      (b.setToPressedKey p s).toString p = lit "MOUSEWHEEL_UP") := by
  constructor
  · intro hd
    have hk : b.setToPressedKey p s = ⟨KeyCode.MOUSEWHEEL_DOWN⟩ := by
      unfold KeyBind.setToPressedKey
      simp [hesc, hd]
    rw [hk]
    refine ⟨rfl, ?_⟩
    cases p <;> decide
  · intro hu
    have hd := ImFloat.not_lt_zero_of_zero_lt _ hu
    have hk : b.setToPressedKey p s = ⟨KeyCode.MOUSEWHEEL_UP⟩ := by
      unfold KeyBind.setToPressedKey
      simp [hesc, hd, hu]
    rw [hk]
    refine ⟨rfl, ?_⟩
    cases p <;> decide

/-- Witness of `wheel_beats_buttons_and_keys`: scroll delta `3` in a frame where every
mouse button is clicked and every key except Escape (code 27) is pressed; the prior
binding `"A"` becomes MOUSEWHEEL_UP. -/
theorem wheel_beats_buttons_and_keys_witness :
    ((⟨10⟩ : KeyBind).setToPressedKey .win32
      ⟨.finite 3, 27, 512, fun _ => true, fun _ => true,
        fun key _ => !decide (key = 27), fun _ => true⟩).keyCode = KeyCode.MOUSEWHEEL_UP :=
  ((wheel_beats_buttons_and_keys .win32
    ⟨.finite 3, 27, 512, fun _ => true, fun _ => true,
      fun key _ => !decide (key = 27), fun _ => true⟩ ⟨10⟩ (by decide)).2 (by decide)).1

/-- C12: mouse capture picks the lowest clicked button. For every prior binding and every
snapshot with Escape not pressed and the scroll delta neither `< 0` nor `> 0`, if `m` is
the smallest index among the mouse buttons `0..4` that are newly clicked, then
`setToPressedKey()` sets `keyCode` to `MOUSE1 + m`, which is one of MOUSE1..MOUSE5 and
whose name is `"MOUSE"` followed by the digit `m + 1`, whatever keys are pressed. -/
theorem mouse_capture_lowest_button (p : Platform) (s : Snapshot) (b : KeyBind) (m : Nat)
    (hesc : s.IsKeyPressed s.KeyMap_Escape IsKeyPressed_defaultRepeat = false)
    (hdown : s.MouseWheel.lt ImFloat.zero = false)
    (hup : ImFloat.zero.lt s.MouseWheel = false)
    (hm : m < 5)
    (hclick : s.IsMouseClicked (m : Int) = true)
    (hmin : ∀ j : Nat, j < m → s.IsMouseClicked (j : Int) = false) :
    (b.setToPressedKey p s).keyCode = KeyCode.MOUSE1 + (m : Int) ∧
    KeyCode.MOUSE1 ≤ (b.setToPressedKey p s).keyCode ∧
    (b.setToPressedKey p s).keyCode ≤ KeyCode.MOUSE5 ∧
    (b.setToPressedKey p s).toString p = lit "MOUSE" ++ [49 + m] := by
  have hscan : mouseScan s MouseDown_size 0 = some m :=
    mouseScan_eq_some s MouseDown_size 0 m (Nat.zero_le m)
      (by unfold MouseDown_size; omega) hclick (fun j _ hj => hmin j hj)
  have hk : b.setToPressedKey p s = ⟨KeyCode.MOUSE1 + (m : Int)⟩ := by
    rw [setToPressedKey_scan p s b hesc hdown hup, hscan]
  rw [hk]
  have hcases : m = 0 ∨ m = 1 ∨ m = 2 ∨ m = 3 ∨ m = 4 := by omega
  refine ⟨rfl, ?_, ?_, ?_⟩
  · simp only [KeyCode.MOUSE1]
    omega
  · simp only [KeyCode.MOUSE1, KeyCode.MOUSE5]
    omega
  · rcases hcases with rfl | rfl | rfl | rfl | rfl <;> cases p <;> decide

/-- Witness of `mouse_capture_lowest_button`: buttons 2 and 4 are clicked and the keys
`65` and `66` are pressed; the capture yields MOUSE3. -/
theorem mouse_capture_lowest_button_witness :
    ((⟨32⟩ : KeyBind).setToPressedKey .win32
      ⟨.finite 0, 27, 512, fun b => decide (b = 2) || decide (b = 4), fun _ => false,
        fun key _ => decide (key = 65) || decide (key = 66), fun _ => false⟩).toString
      .win32 = lit "MOUSE3" :=
  (mouse_capture_lowest_button .win32
    ⟨.finite 0, 27, 512, fun b => decide (b = 2) || decide (b = 4), fun _ => false,
      fun key _ => decide (key = 65) || decide (key = 66), fun _ => false⟩ ⟨32⟩ 2
    (by decide) (by decide) (by decide) (by decide) (by decide)
    (by decide)).2.2.2.trans (by decide)

theorem findCode_eq_length_iff (keys : List Key) (c : Int) :
    findCode keys c = keys.length ↔ ∀ e ∈ keys, e.code ≠ c := by
  induction keys with
  | nil => simp [findCode]
  | cons key rest ih =>
    unfold findCode
    split_ifs with hc
    · simp [hc]
    · simp [hc, ih]

/-- C13, as the code has it: keyboard capture takes the first newly pressed code that has
a row. For every prior binding and every snapshot with Escape not pressed, the scroll
delta neither `< 0` nor `> 0` and no mouse button `0..4` clicked, if `c` is a host
keyboard code that is newly pressed and is the code of some row, and every newly pressed
code below `c` is the code of no row (such codes are skipped), then `setToPressedKey()`
assigns the index of the first row, in table order, whose code equals `c`. -/
theorem keyboard_capture_first_mapped_code (p : Platform) (s : Snapshot) (b : KeyBind)
    (c : Nat)
    (hesc : s.IsKeyPressed s.KeyMap_Escape IsKeyPressed_defaultRepeat = false)
    (hdown : s.MouseWheel.lt ImFloat.zero = false)
    (hup : ImFloat.zero.lt s.MouseWheel = false)
    (hmouse : ∀ j : Nat, j < MouseDown_size → s.IsMouseClicked (j : Int) = false)
    (hc : c < s.KeysDown_size)
    (hpress : s.IsKeyPressed (c : Int) IsKeyPressed_defaultRepeat = true)
    (hrow : ∃ e ∈ keyMap p, e.code = (c : Int))
    (hlow : ∀ j : Nat, j < c → s.IsKeyPressed (j : Int) IsKeyPressed_defaultRepeat = true →
      ∀ e ∈ keyMap p, e.code ≠ (j : Int)) :
    (b.setToPressedKey p s).keyCode = (findCode (keyMap p) (c : Int) : Int) ∧
    findCode (keyMap p) (c : Int) < (keyMap p).length ∧
    (keyAt p (findCode (keyMap p) (c : Int))).code = (c : Int) ∧
    (∀ k : Nat, k < findCode (keyMap p) (c : Int) → (keyAt p k).code ≠ (c : Int)) := by
  have hne : findCode (keyMap p) (c : Int) ≠ (keyMap p).length := by
    intro e
    obtain ⟨r, hr, hrc⟩ := hrow
    exact (findCode_eq_length_iff _ _).1 e r hr hrc
  have hm : mouseScan s MouseDown_size 0 = none :=
    mouseScan_eq_none s MouseDown_size 0 (fun j _ hj => hmouse j (by omega))
  have hk : keyScan p s s.KeysDown_size 0 = some (findCode (keyMap p) (c : Int)) :=
    keyScan_eq_some p s s.KeysDown_size 0 c (Nat.zero_le c) (by omega) hpress hne
      (fun j _ hj hp => (findCode_eq_length_iff _ _).2 (hlow j hj hp))
  have hres : b.setToPressedKey p s = ⟨(findCode (keyMap p) (c : Int) : Int)⟩ := by
    rw [setToPressedKey_scan p s b hesc hdown hup, hm, hk]
  rw [hres]
  obtain ⟨a1, a2⟩ := findCode_spec (keyMap p) (c : Int) ⟨[], 0⟩ hne
  exact ⟨rfl, lt_of_le_of_ne (findCode_le _ _) hne, a1, a2⟩

/-- Witness of `keyboard_capture_first_mapped_code`: in the frame with the codes `8` and
`65` pressed, the code `8` has no row and is skipped, and the capture yields row 10,
`"A"`. -/
theorem keyboard_capture_first_mapped_code_witness :
    ((⟨32⟩ : KeyBind).setToPressedKey .win32 frameBackspaceAndA).keyCode = 10 ∧
    (keyAt .win32 10).name = lit "A" :=
  ⟨(keyboard_capture_first_mapped_code .win32 frameBackspaceAndA ⟨32⟩ 65
      (by decide) (by decide) (by decide)
      (fun j hj => by
        have h5 : j < 5 := hj
        have hcases : j = 0 ∨ j = 1 ∨ j = 2 ∨ j = 3 ∨ j = 4 := by omega
        rcases hcases with rfl | rfl | rfl | rfl | rfl <;> rfl)
      (by decide) (by decide) ⟨keyAt .win32 10, by decide, by decide⟩
      (fun j hj hp => by
        have h8 : (j : Int) = 8 := by
          have h := hp
          simp only [frameBackspaceAndA, Bool.or_eq_true, decide_eq_true_eq] at h
          omega
        rw [h8]
        decide)).1.trans (by decide),
   by decide⟩

/-- Counterexample to C13 as stated: in the keyboard step (Escape not pressed, scroll
delta `0`, no mouse button clicked) of the frame with the codes `8` and `65` pressed, the
first newly pressed code is `8`, yet the capture assigns row 10, whose code is `65`, not
`8`; no row at all has the code `8`. -/
theorem keyboard_capture_first_code_counterexample :
    frameBackspaceAndA.IsKeyPressed frameBackspaceAndA.KeyMap_Escape
      IsKeyPressed_defaultRepeat = false ∧
    frameBackspaceAndA.MouseWheel.lt ImFloat.zero = false ∧
    ImFloat.zero.lt frameBackspaceAndA.MouseWheel = false ∧
    (∀ j : Fin 5, frameBackspaceAndA.IsMouseClicked ((j : Nat) : Int) = false) ∧
    8 < frameBackspaceAndA.KeysDown_size ∧
    frameBackspaceAndA.IsKeyPressed 8 IsKeyPressed_defaultRepeat = true ∧
    (∀ j : Fin 8,
      frameBackspaceAndA.IsKeyPressed ((j : Nat) : Int) IsKeyPressed_defaultRepeat = false) ∧
    ((⟨32⟩ : KeyBind).setToPressedKey .win32 frameBackspaceAndA).keyCode = 10 ∧
    (keyAt .win32 10).code = 65 ∧
    (∀ k : Fin 45, (keyAt .win32 k).code ≠ 8) := by
  refine ⟨by decide, by decide, by decide, by decide, by decide, by decide, by decide,
    by decide, by decide, by decide⟩

/-- C14: capture is a no-op without input. For every prior binding (NONE and stale,
out-of-range values included) and every snapshot with Escape not pressed, scroll delta
equal to `0`, no mouse button clicked and no keyboard code pressed, `setToPressedKey()`
leaves the binding as it was. -/
theorem capture_noop_without_input (p : Platform) (s : Snapshot) (b : KeyBind)
    (hesc : s.IsKeyPressed s.KeyMap_Escape IsKeyPressed_defaultRepeat = false)
    (hwheel : s.MouseWheel = ImFloat.zero)
    (hmouse : ∀ j : Nat, j < MouseDown_size → s.IsMouseClicked (j : Int) = false)
    (hkeys : ∀ j : Nat, j < s.KeysDown_size →
      s.IsKeyPressed (j : Int) IsKeyPressed_defaultRepeat = false) :
    b.setToPressedKey p s = b ∧ (b.setToPressedKey p s).keyCode = b.keyCode := by
  have hm : mouseScan s MouseDown_size 0 = none :=
    mouseScan_eq_none s MouseDown_size 0 (fun j _ hj => hmouse j (by omega))
  have hk : keyScan p s s.KeysDown_size 0 = none :=
    keyScan_eq_none p s s.KeysDown_size 0 (fun j _ hj hp => by
      rw [hkeys j (by omega)] at hp
      exact absurd hp (by decide))
  have hres : b.setToPressedKey p s = b := by
    rw [setToPressedKey_scan p s b hesc (by rw [hwheel]; decide) (by rw [hwheel]; decide),
      hm, hk]
  exact ⟨hres, by rw [hres]⟩

/-- Witness of `capture_noop_without_input`: an empty frame leaves the stale key code
`200` (out of range) untouched. -/
theorem capture_noop_without_input_witness :
    ((⟨200⟩ : KeyBind).setToPressedKey .linux
      ⟨.finite 0, 41, 512, fun _ => false, fun _ => false, fun _ _ => false,
        fun _ => true⟩).keyCode = 200 :=
  (capture_noop_without_input .linux
    ⟨.finite 0, 41, 512, fun _ => false, fun _ => false, fun _ _ => false,
      fun _ => true⟩ ⟨200⟩ rfl rfl (fun _ _ => rfl) (fun _ _ => rfl)).2

/-- C15, the code at the failing input: in the keyboard step (Escape not pressed, scroll
delta `0`, no mouse button clicked) of a frame whose only input is the keyboard code `0`,
`setToPressedKey()` turns the binding `"A"` into MOUSE1, on both build targets: the
linear search compares the code with every row, the mouse rows included. The keyboard
codes `0..3` are resolved to MOUSE1..MOUSE4 in this way, and on Windows `4` to MOUSE5. -/
theorem keyboard_code_zero_captured_as_MOUSE1 :
    frameKeyCodeZero.IsKeyPressed frameKeyCodeZero.KeyMap_Escape
      IsKeyPressed_defaultRepeat = false ∧
    frameKeyCodeZero.MouseWheel = ImFloat.zero ∧
    (∀ j : Fin 5, frameKeyCodeZero.IsMouseClicked ((j : Nat) : Int) = false) ∧
    ((⟨10⟩ : KeyBind).setToPressedKey .linux frameKeyCodeZero).keyCode = KeyCode.MOUSE1 ∧
    ((⟨10⟩ : KeyBind).setToPressedKey .linux frameKeyCodeZero).toString .linux =
      lit "MOUSE1" ∧
    ((⟨10⟩ : KeyBind).setToPressedKey .win32 frameKeyCodeZero).toString .win32 =
      lit "MOUSE1" ∧
    (∀ c : Fin 4, ∀ p : Platform,
      (findCode (keyMap p) ((c : Nat) : Int) : Int) = KeyCode.MOUSE1 + ((c : Nat) : Int)) ∧
    (findCode (keyMap .win32) 4 : Int) = KeyCode.MOUSE5 := by
  refine ⟨by decide, by decide, by decide, by decide, by decide, by decide, ?_, by decide⟩
  intro c p
  cases p <;> revert c <;> decide

/-- Counterexample to C16 as stated: in the Windows column no row named `"Y"` has the
code of a row named `"Z"`. -/
theorem windows_Y_Z_same_code_counterexample :
    ¬ ∃ y ∈ keyMap .win32, ∃ z ∈ keyMap .win32,
      y.name = lit "Y" ∧ z.name = lit "Z" ∧ y.code = z.code := by
  decide

/-- C16, as the code has it: the duplicate code is in the Linux column (the second
argument of `WIN32_LINUX`), where the rows named `"X"` and `"Z"` both carry
`SDL_SCANCODE_X`; in the Windows column the rows named `"Y"` and `"Z"` carry the
different codes `'Y'` and `'Z'`. -/
theorem duplicate_code_is_linux_X_Z :
    (keyAt .linux 42).name = lit "X" ∧ (keyAt .linux 44).name = lit "Z" ∧
    (keyAt .linux 42).code = SDL_SCANCODE_X ∧ (keyAt .linux 44).code = SDL_SCANCODE_X ∧
    (keyAt .win32 43).name = lit "Y" ∧ (keyAt .win32 44).name = lit "Z" ∧
    (keyAt .win32 43).code = chr 'Y' ∧ (keyAt .win32 44).code = chr 'Z' ∧
    (keyAt .win32 43).code ≠ (keyAt .win32 44).code := by
  decide

/-! ### What a capture can assign -/

/-- Every outcome of `setToPressedKey`: the binding is unchanged, or it is NONE, a wheel
sentinel, `MOUSE1 + i` with `i < 5`, or the position that the linear search returns for
some code that has a row. -/
theorem setToPressedKey_cases (p : Platform) (s : Snapshot) (b : KeyBind) :
    b.setToPressedKey p s = b ∨
    b.setToPressedKey p s = ⟨KeyCode.NONE⟩ ∨
    b.setToPressedKey p s = ⟨KeyCode.MOUSEWHEEL_DOWN⟩ ∨
    b.setToPressedKey p s = ⟨KeyCode.MOUSEWHEEL_UP⟩ ∨
    (∃ i : Nat, i < 5 ∧ b.setToPressedKey p s = ⟨KeyCode.MOUSE1 + (i : Int)⟩) ∨
    (∃ c : Nat, findCode (keyMap p) (c : Int) ≠ (keyMap p).length ∧
      b.setToPressedKey p s = ⟨(findCode (keyMap p) (c : Int) : Int)⟩) := by
  unfold KeyBind.setToPressedKey
  split_ifs with h1 h2 h3
  · exact Or.inr (Or.inl rfl)
  · exact Or.inr (Or.inr (Or.inl rfl))
  · exact Or.inr (Or.inr (Or.inr (Or.inl rfl)))
  · cases hm : mouseScan s MouseDown_size 0 with
    | some i =>
      have hb := mouseScan_some_bound s MouseDown_size 0 i hm
      exact Or.inr (Or.inr (Or.inr (Or.inr (Or.inl
        ⟨i, by unfold MouseDown_size at hb; omega, rfl⟩))))
    | none =>
      cases hk : keyScan p s s.KeysDown_size 0 with
      | some k =>
        obtain ⟨c, _, _, _, hc, rfl⟩ := keyScan_some p s s.KeysDown_size 0 k hk
        exact Or.inr (Or.inr (Or.inr (Or.inr (Or.inr ⟨c, hc, rfl⟩))))
      | none => exact Or.inl rfl

/-- A capture either keeps the binding or assigns a table position. -/
theorem setToPressedKey_position (p : Platform) (s : Snapshot) (b : KeyBind) :
    b.setToPressedKey p s = b ∨
    ∃ k : Nat, k < (keyMap p).length ∧ b.setToPressedKey p s = ⟨(k : Int)⟩ := by
  have hlen := keyMap_length p
  rcases setToPressedKey_cases p s b with h | h | h | h | ⟨i, hi, h⟩ | ⟨c, hc, h⟩
  · exact Or.inl h
  · exact Or.inr ⟨32, by omega, h⟩
  · exact Or.inr ⟨29, by omega, h⟩
  · exact Or.inr ⟨30, by omega, h⟩
  · refine Or.inr ⟨24 + i, by omega, ?_⟩
    rw [h]
    simp [KeyCode.MOUSE1]
  · exact Or.inr ⟨_, lt_of_le_of_ne (findCode_le _ _) hc, h⟩

theorem sizeCast_natCast (k : Nat) (h : k < 45) : sizeCast (k : Int) = k := by
  rw [sizeCast_of_nonneg (k : Int) (by omega) (by omega)]
  simp

theorem ofName_position (p : Platform) (keyName : CStr) :
    ∃ k : Nat, k < (keyMap p).length ∧ KeyBind.ofName p keyName = ⟨(k : Int)⟩ := by
  have hlen := keyMap_length p
  unfold KeyBind.ofName
  simp only
  split_ifs with hc
  · exact ⟨_, lt_of_le_of_ne (lowerBound_le p keyName) hc.1, rfl⟩
  · exact ⟨32, by omega, rfl⟩

theorem inRange_of_position (p : Platform) (k : Nat) (h : k < (keyMap p).length) :
    (⟨(k : Int)⟩ : KeyBind).inRange p := by
  have hlen := keyMap_length p
  unfold KeyBind.inRange
  rw [sizeCast_natCast k (by omega)]
  exact h

theorem setToPressedKey_inRange (p : Platform) (s : Snapshot) (b : KeyBind)
    (h : b.inRange p) : (b.setToPressedKey p s).inRange p := by
  rcases setToPressedKey_position p s b with e | ⟨k, hk, e⟩
  · rw [e]; exact h
  · rw [e]; exact inRange_of_position p k hk

theorem captures_inRange (p : Platform) (frames : List Snapshot) (b : KeyBind)
    (h : b.inRange p) : (captures p frames b).inRange p := by
  induction frames generalizing b with
  | nil => exact h
  | cons s rest ih => exact ih _ (setToPressedKey_inRange p s b h)

/-- C17: the in-range invariant. Every `KeyBind` produced by either constructor passes
the test `keyCode < keyMap.size()`, `setToPressedKey()` preserves it on every snapshot,
and hence after any finite sequence of captures on a constructed binding `toString()`
returns `keyMap[keyCode].name` and does not take the defensive fallback. -/
theorem in_range_invariant (p : Platform) (i : Int) (keyName : CStr)
    (frames : List Snapshot) :
    (KeyBind.ofCode p i).inRange p ∧
    (KeyBind.ofName p keyName).inRange p ∧
    (∀ (s : Snapshot) (b : KeyBind), b.inRange p → (b.setToPressedKey p s).inRange p) ∧
    (∀ b : KeyBind, b = KeyBind.ofCode p i ∨ b = KeyBind.ofName p keyName →
      (captures p frames b).inRange p ∧
      (captures p frames b).toString p =
        (keyAt p (sizeCast (captures p frames b).keyCode)).name) := by
  have hlen := keyMap_length p
  have hcode : (KeyBind.ofCode p i).inRange p := by
    unfold KeyBind.inRange KeyBind.ofCode
    split_ifs with h
    · exact h
    · rw [hlen]; decide
  have hname : (KeyBind.ofName p keyName).inRange p := by
    obtain ⟨k, hk, e⟩ := ofName_position p keyName
    rw [e]
    exact inRange_of_position p k hk
  refine ⟨hcode, hname, fun s b h => setToPressedKey_inRange p s b h, ?_⟩
  intro b hb
  have hin : b.inRange p := by
    rcases hb with rfl | rfl
    · exact hcode
    · exact hname
  have hc := captures_inRange p frames b hin
  refine ⟨hc, ?_⟩
  have hc2 : sizeCast (captures p frames b).keyCode < (keyMap p).length := hc
  unfold KeyBind.toString
  rw [if_pos hc2]

/-- Witness of `in_range_invariant`: the binding constructed from the out-of-range index
`99`, after a frame with mouse button 1 clicked and a frame with the Windows key `'Q'`
pressed, is the row `"Q"`. -/
theorem in_range_invariant_witness :
    (captures .win32
      [⟨.finite 0, 27, 512, fun b => decide (b = 1), fun _ => false, fun _ _ => false,
          fun _ => false⟩,
       ⟨.finite 0, 27, 512, fun _ => false, fun _ => false,
          fun key _ => decide (key = 81), fun _ => false⟩]
      (KeyBind.ofCode .win32 99)).inRange .win32 ∧
    (captures .win32
      [⟨.finite 0, 27, 512, fun b => decide (b = 1), fun _ => false, fun _ _ => false,
          fun _ => false⟩,
       ⟨.finite 0, 27, 512, fun _ => false, fun _ => false,
          fun key _ => decide (key = 81), fun _ => false⟩]
      (KeyBind.ofCode .win32 99)).toString .win32 = lit "Q" :=
  ⟨((in_range_invariant .win32 99 (lit "Q")
      [⟨.finite 0, 27, 512, fun b => decide (b = 1), fun _ => false, fun _ _ => false,
          fun _ => false⟩,
       ⟨.finite 0, 27, 512, fun _ => false, fun _ => false,
          fun key _ => decide (key = 81), fun _ => false⟩]).2.2.2
      (KeyBind.ofCode .win32 99) (Or.inl rfl)).1,
   ((in_range_invariant .win32 99 (lit "Q")
      [⟨.finite 0, 27, 512, fun b => decide (b = 1), fun _ => false, fun _ _ => false,
          fun _ => false⟩,
       ⟨.finite 0, 27, 512, fun _ => false, fun _ => false,
          fun key _ => decide (key = 81), fun _ => false⟩]).2.2.2
      (KeyBind.ofCode .win32 99) (Or.inl rfl)).2.trans (by decide)⟩

/-! ### Saving and loading a binding -/

set_option maxRecDepth 100000 in
theorem ofName_toString_position (p : Platform) (k : Nat) (hk : k < (keyMap p).length) :
    KeyBind.ofName p ((⟨(k : Int)⟩ : KeyBind).toString p) = ⟨(k : Int)⟩ := by
  have key : ∀ q : Platform, ∀ j : Fin 45,
      KeyBind.ofName q ((⟨((j : Nat) : Int)⟩ : KeyBind).toString q) = ⟨((j : Nat) : Int)⟩ := by
    intro q
    cases q <;> decide
  rw [keyMap_length] at hk
  exact key p ⟨k, hk⟩

theorem ofCode_position (p : Platform) (i : Int) (hi : Representable i) :
    ∃ k : Nat, k < (keyMap p).length ∧ KeyBind.ofCode p i = ⟨(k : Int)⟩ := by
  have hlen := keyMap_length p
  obtain ⟨hlo, hhi⟩ := hi
  unfold KeyBind.ofCode
  split_ifs with h
  · have h0 : 0 ≤ i := by
      by_contra hneg
      have := sizeCast_of_neg i (by omega) hlo
      omega
    rw [sizeCast_of_nonneg i h0 hhi] at h
    exact ⟨i.toNat, h, by rw [Int.toNat_of_nonneg h0]⟩
  · exact ⟨32, by omega, rfl⟩

theorem captures_position (p : Platform) (frames : List Snapshot) (b : KeyBind)
    (h : ∃ k : Nat, k < (keyMap p).length ∧ b = ⟨(k : Int)⟩) :
    ∃ k : Nat, k < (keyMap p).length ∧ captures p frames b = ⟨(k : Int)⟩ := by
  induction frames generalizing b with
  | nil => exact h
  | cons s rest ih =>
    apply ih (b.setToPressedKey p s)
    rcases setToPressedKey_position p s b with e | e
    · rw [e]; exact h
    · exact e

/-- C18: save/load round trip on bindings. For every `KeyBind` `b` with an in-range
`keyCode`, `KeyBind(b.toString())` has the same `keyCode` as `b`; in particular this
holds for a binding made by either constructor and for such a binding after any finite
sequence of captures. -/
theorem save_load_round_trip (p : Platform) (b : KeyBind)
    (h0 : 0 ≤ b.keyCode) (h1 : b.keyCode < ((keyMap p).length : Int)) :
    (KeyBind.ofName p (b.toString p)).keyCode = b.keyCode ∧
    (∀ i : Int, Representable i →
      (KeyBind.ofName p ((KeyBind.ofCode p i).toString p)).keyCode =
        (KeyBind.ofCode p i).keyCode) ∧
    (∀ keyName : CStr,
      (KeyBind.ofName p ((KeyBind.ofName p keyName).toString p)).keyCode =
        (KeyBind.ofName p keyName).keyCode) ∧
    (∀ frames : List Snapshot,
      (KeyBind.ofName p ((captures p frames b).toString p)).keyCode =
        (captures p frames b).keyCode) := by
  have hpos : ∃ k : Nat, k < (keyMap p).length ∧ b = ⟨(k : Int)⟩ := by
    obtain ⟨kc⟩ := b
    refine ⟨kc.toNat, ?_, ?_⟩
    · simp only at h0 h1; omega
    · simp only at h0; rw [Int.toNat_of_nonneg h0]
  have key : ∀ c : KeyBind, (∃ k : Nat, k < (keyMap p).length ∧ c = ⟨(k : Int)⟩) →
      (KeyBind.ofName p (c.toString p)).keyCode = c.keyCode := by
    rintro c ⟨k, hk, rfl⟩
    rw [ofName_toString_position p k hk]
  exact ⟨key b hpos, fun i hi => key _ (ofCode_position p i hi),
    fun keyName => key _ (ofName_position p keyName),
    fun frames => key _ (captures_position p frames b hpos)⟩

/-- Witness of `save_load_round_trip`: the binding MOUSEWHEEL_UP (row 30) is saved as
`"MOUSEWHEEL_UP"` and loaded back as row 30. -/
theorem save_load_round_trip_witness :
    (⟨30⟩ : KeyBind).toString .linux = lit "MOUSEWHEEL_UP" ∧
    (KeyBind.ofName .linux ((⟨30⟩ : KeyBind).toString .linux)).keyCode = 30 :=
  ⟨by decide, (save_load_round_trip .linux ⟨30⟩ (by decide) (by decide)).1⟩

/-! ### The keyboard step on the two tables -/

/-- The keyboard step of `setToPressedKey`: when Escape is not pressed, the scroll delta
is neither negative nor positive and no mouse button is clicked, the first pressed code
for which the linear search finds a row decides the outcome. -/
theorem setToPressedKey_keyboard (p : Platform) (s : Snapshot) (b : KeyBind) (c : Nat)
    (hesc : s.IsKeyPressed s.KeyMap_Escape IsKeyPressed_defaultRepeat = false)
    (hdown : s.MouseWheel.lt ImFloat.zero = false)
    (hup : ImFloat.zero.lt s.MouseWheel = false)
    (hmouse : ∀ j : Nat, j < MouseDown_size → s.IsMouseClicked (j : Int) = false)
    (hc : c < s.KeysDown_size)
    (hpress : s.IsKeyPressed (c : Int) IsKeyPressed_defaultRepeat = true)
    (hrow : findCode (keyMap p) (c : Int) ≠ (keyMap p).length)
    (hlow : ∀ j : Nat, j < c → s.IsKeyPressed (j : Int) IsKeyPressed_defaultRepeat = true →
      findCode (keyMap p) (j : Int) = (keyMap p).length) :
    b.setToPressedKey p s = ⟨(findCode (keyMap p) (c : Int) : Int)⟩ := by
  have hm : mouseScan s MouseDown_size 0 = none :=
    mouseScan_eq_none s MouseDown_size 0 (fun j _ hj => hmouse j (by omega))
  have hk : keyScan p s s.KeysDown_size 0 = some (findCode (keyMap p) (c : Int)) :=
    keyScan_eq_some p s s.KeysDown_size 0 c (Nat.zero_le c) (by omega) hpress hrow
      (fun j _ hj hp => hlow j hj hp)
  rw [setToPressedKey_scan p s b hesc hdown hup, hm, hk]

/-- C19: every keyboard row is capturable with the Windows table. For every row `i`
other than NONE, the wheel sentinels and MOUSE1..MOUSE5, and every prior binding, on a
snapshot whose only input is the row's code newly pressed (no Escape, scroll delta `0`,
no mouse click; the code lies within the host's key array), `setToPressedKey()` sets
`keyCode` to `i`. Equivalently, the row's Windows code differs from that of every other
keyboard row and lies outside the codes `0..4` of the mouse and sentinel rows. -/
theorem windows_keyboard_rows_capturable (s : Snapshot) (b : KeyBind) (i : Nat)
    (hi : i < (keyMap .win32).length)
    (hkb : (keyAt .win32 i).name ∉ nonKeyboardNames)
    (hesc : s.IsKeyPressed s.KeyMap_Escape IsKeyPressed_defaultRepeat = false)
    (hwheel : s.MouseWheel = ImFloat.zero)
    (hmouse : ∀ j : Nat, j < MouseDown_size → s.IsMouseClicked (j : Int) = false)
    (hsize : (keyAt .win32 i).code < (s.KeysDown_size : Int))
    (honly : ∀ j : Nat, j < s.KeysDown_size →
      (s.IsKeyPressed (j : Int) IsKeyPressed_defaultRepeat = true ↔
        (j : Int) = (keyAt .win32 i).code)) :
    (b.setToPressedKey .win32 s).keyCode = (i : Int) ∧
    (∀ j : Nat, j < (keyMap .win32).length → j ≠ i →
      (keyAt .win32 j).name ∉ nonKeyboardNames →
      (keyAt .win32 j).code ≠ (keyAt .win32 i).code) ∧
    ¬ (0 ≤ (keyAt .win32 i).code ∧ (keyAt .win32 i).code ≤ 4) ∧
    (∀ e ∈ keyMap .win32, e.name ∈ nonKeyboardNames → 0 ≤ e.code ∧ e.code ≤ 4) := by
  have table : ∀ k : Fin 45, (keyAt .win32 k).name ∉ nonKeyboardNames →
      4 < (keyAt .win32 k).code ∧
      findCode (keyMap .win32) (keyAt .win32 k).code = k ∧
      ∀ j : Fin 45, j ≠ k → (keyAt .win32 j).name ∉ nonKeyboardNames →
        (keyAt .win32 j).code ≠ (keyAt .win32 k).code := by
    decide
  have hlen := keyMap_length .win32
  obtain ⟨t1, t2, t3⟩ := table ⟨i, by omega⟩ hkb
  simp only at t1 t2 t3
  have hcast : (((keyAt .win32 i).code.toNat : Nat) : Int) = (keyAt .win32 i).code :=
    Int.toNat_of_nonneg (by omega)
  have hres := setToPressedKey_keyboard .win32 s b (keyAt .win32 i).code.toNat hesc
    (by rw [hwheel]; decide) (by rw [hwheel]; decide) hmouse (by omega)
    ((honly _ (by omega)).2 hcast)
    (by rw [hcast, t2]; omega)
    (fun j hj hp => by
      have := (honly j (by omega)).1 hp
      omega)
  rw [hcast, t2] at hres
  refine ⟨by rw [hres], ?_, by omega, by decide⟩
  intro j hj hne hjkb
  exact t3 ⟨j, by omega⟩ (by
    intro e
    apply hne
    exact congrArg Fin.val e) hjkb

/-- Witness of `windows_keyboard_rows_capturable`: the row `"INSERT"` (position 19, code
`VK_INSERT = 45`), with the prior binding MOUSE1. -/
theorem windows_keyboard_rows_capturable_witness :
    (keyAt .win32 19).name = lit "INSERT" ∧
    ((⟨24⟩ : KeyBind).setToPressedKey .win32
      ⟨.finite 0, 27, 512, fun _ => false, fun _ => false,
        fun key _ => decide (key = 45), fun _ => false⟩).keyCode = 19 :=
  ⟨by decide,
   (windows_keyboard_rows_capturable
      ⟨.finite 0, 27, 512, fun _ => false, fun _ => false,
        fun key _ => decide (key = 45), fun _ => false⟩ ⟨24⟩ 19
      (by decide) (by decide) (by decide) rfl (fun _ _ => rfl) (by decide)
      (fun j _ => by
        show (decide ((j : Int) = 45) = true) ↔ (j : Int) = (keyAt .win32 19).code
        rw [decide_eq_true_eq, show (keyAt .win32 19).code = 45 from by decide])).1⟩

theorem findCode_linux_ne_Z (c : Int) : findCode (keyMap .linux) c ≠ 44 := by
  intro h
  have hne : findCode (keyMap .linux) c ≠ (keyMap .linux).length := by
    rw [h]; decide
  obtain ⟨a1, a2⟩ := findCode_spec (keyMap .linux) c ⟨[], 0⟩ hne
  rw [h] at a1 a2
  have hc : c = 27 := by
    rw [← a1]; decide
  apply a2 42 (by decide)
  rw [hc]
  decide

set_option maxRecDepth 100000 in
/-- C20: `"Z"` can never be captured with the Linux table, where the row `"Z"`
(position 44) carries `SDL_SCANCODE_X`, the code of the earlier row `"X"` (position 42).
For every prior binding whose `keyCode` is not that of `"Z"` and every snapshot,
`setToPressedKey()` yields a `keyCode` different from that of `"Z"`, and the name of the
result is not `"Z"` when the name of the prior binding is not; a press of the code
stored in the row `"Z"` is resolved to `"X"` by the linear search and by the capture. -/
theorem linux_Z_never_captured (s : Snapshot) (b : KeyBind) (hb : b.keyCode ≠ 44) :
    (b.setToPressedKey .linux s).keyCode ≠ 44 ∧
    (b.toString .linux ≠ lit "Z" → (b.setToPressedKey .linux s).toString .linux ≠ lit "Z") ∧
    (keyAt .linux 44).name = lit "Z" ∧ (keyAt .linux 42).name = lit "X" ∧
    (keyAt .linux 44).code = SDL_SCANCODE_X ∧ (keyAt .linux 42).code = SDL_SCANCODE_X ∧
    findCode (keyMap .linux) (keyAt .linux 44).code = 42 ∧
    (s.IsKeyPressed s.KeyMap_Escape IsKeyPressed_defaultRepeat = false →
      s.MouseWheel.lt ImFloat.zero = false → ImFloat.zero.lt s.MouseWheel = false →
      (∀ j : Nat, j < MouseDown_size → s.IsMouseClicked (j : Int) = false) →
      27 < s.KeysDown_size →
      s.IsKeyPressed (keyAt .linux 44).code IsKeyPressed_defaultRepeat = true →
      (∀ j : Nat, j < 27 → s.IsKeyPressed (j : Int) IsKeyPressed_defaultRepeat = true →
        ∀ e ∈ keyMap .linux, e.code ≠ (j : Int)) →
      (b.setToPressedKey .linux s).toString .linux = lit "X") := by
  have names : ∀ k : Fin 45, (k : Nat) ≠ 44 →
      (⟨((k : Nat) : Int)⟩ : KeyBind).toString .linux ≠ lit "Z" := by
    decide
  have hpos : ∀ k : Nat, k < (keyMap .linux).length →
      b.setToPressedKey .linux s = ⟨(k : Int)⟩ → k ≠ 44 := by
    intro k hk e h44
    subst h44
    rcases setToPressedKey_cases .linux s b with h | h | h | h | ⟨i, hi, h⟩ | ⟨c, hc, h⟩
    · rw [h] at e
      exact hb (by rw [e]; rfl)
    · rw [h] at e
      exact absurd e (by decide)
    · rw [h] at e
      exact absurd e (by decide)
    · rw [h] at e
      exact absurd e (by decide)
    · rw [h] at e
      have := congrArg KeyBind.keyCode e
      simp only [KeyCode.MOUSE1] at this
      omega
    · rw [h] at e
      have := congrArg KeyBind.keyCode e
      simp only at this
      exact findCode_linux_ne_Z (c : Int) (by omega)
  refine ⟨?_, ?_, by decide, by decide, by decide, by decide, by decide, ?_⟩
  · rcases setToPressedKey_position .linux s b with e | ⟨k, hk, e⟩
    · rw [e]; exact hb
    · have := hpos k hk e
      rw [e]
      simp only
      omega
  · intro hname
    rcases setToPressedKey_position .linux s b with e | ⟨k, hk, e⟩
    · rw [e]; exact hname
    · have h44 := hpos k hk e
      rw [e]
      exact names ⟨k, by rw [keyMap_length] at hk; exact hk⟩ h44
  · intro hesc hdown hup hmouse hsz hpress hlow
    have hres := setToPressedKey_keyboard .linux s b 27 hesc hdown hup hmouse hsz hpress
      (by decide)
      (fun j hj hp => (findCode_eq_length_iff _ _).2 (hlow j hj hp))
    rw [hres]
    decide

set_option maxRecDepth 100000 in
/-- Witness of `linux_Z_never_captured`: on Linux the physical key Z has scancode `29`,
which no row carries, so pressing it leaves the binding `"A"` as it was; pressing the
key with scancode `27`, the code stored in the row `"Z"`, yields `"X"`. -/
theorem linux_Z_never_captured_witness :
    ((⟨10⟩ : KeyBind).setToPressedKey .linux
      ⟨.finite 0, 41, 512, fun _ => false, fun _ => false,
        fun key _ => decide (key = 29), fun _ => false⟩).keyCode ≠ 44 ∧
    ((⟨10⟩ : KeyBind).setToPressedKey .linux
      ⟨.finite 0, 41, 512, fun _ => false, fun _ => false,
        fun key _ => decide (key = 29), fun _ => false⟩).keyCode = 10 ∧
    ((⟨10⟩ : KeyBind).setToPressedKey .linux
      ⟨.finite 0, 41, 512, fun _ => false, fun _ => false,
        fun key _ => decide (key = 27), fun _ => false⟩).toString .linux = lit "X" :=
  ⟨(linux_Z_never_captured
      ⟨.finite 0, 41, 512, fun _ => false, fun _ => false,
        fun key _ => decide (key = 29), fun _ => false⟩ ⟨10⟩ (by decide)).1,
   by decide,
   (linux_Z_never_captured
      ⟨.finite 0, 41, 512, fun _ => false, fun _ => false,
        fun key _ => decide (key = 27), fun _ => false⟩ ⟨10⟩ (by decide)).2.2.2.2.2.2.2
      rfl rfl rfl (fun _ _ => rfl) (by decide) (by decide)
      (fun j hj hp => by
        have h : (j : Int) = 27 := by
          have h2 := hp
          simp only [decide_eq_true_eq] at h2
          exact h2
        omega)⟩

end Osiris
